import Mathlib

/-!
Verification of `digest.py` (jshusak/matic-digest).

The Python source is shallowly embedded: pure fragments become Lean
functions on `List Char` / `String` / `List`, dict-shaped data becomes
structures, external effects (HTTP, the LLM classifier, `json.loads`,
subprocess) become explicit oracle parameters or `Except` values, and
uncaught Python exceptions become `Except.error` results.  Python float
comparison `overlap >= 0.7` with `overlap = inter / max` is embedded as
the exact rational comparison `7 * max ≤ 10 * inter` (the quantities in
the program are small enough that the float and rational comparisons
agree).
-/

/-! ### Python string helpers (models of `str` methods used by the code) -/

/-- Model of Python `str.strip()` / the symmetric part of trimming:
drop whitespace from both ends. -/
def pyStrip (cs : List Char) : List Char :=
  ((cs.dropWhile Char.isWhitespace).reverse.dropWhile Char.isWhitespace).reverse

/-- Helper for `pySplit`: accumulates the current word (reversed). -/
def pySplitAux : List Char → List Char → List (List Char)
  | [], acc => if acc.isEmpty then [] else [acc.reverse]
  | c :: cs, acc =>
    if c.isWhitespace then
      if acc.isEmpty then pySplitAux cs [] else acc.reverse :: pySplitAux cs []
    else pySplitAux cs (c :: acc)

/-- Model of Python `str.split()` (no separator): split on runs of
whitespace, dropping empty words. -/
def pySplit (cs : List Char) : List (List Char) :=
  pySplitAux cs []

/-- Model of Python `str.rfind(c)`: index of the last occurrence of `c`,
`none` standing for Python's `-1`. -/
def rfindChar (c : Char) : List Char → Option Nat
  | [] => none
  | x :: xs =>
    match rfindChar c xs with
    | some i => some (i + 1)
    | none => if x = c then some 0 else none

/-! ### Data model -/

/-- A candidate article as it flows through `main`: the NewsAPI/RSS
fields the pipeline reads, plus the enrichment fields written by the
classification loop (`summary`, `agency_relevance`, `talking_points`,
empty before enrichment). -/
structure Article where
  title : String
  url : String
  summary : String
  agency_relevance : String
  talking_points : List String
  deriving DecidableEq

/-- The JSON object produced by the per-article classifier
(`evaluate_and_summarize`), after `result.get(...)` accessors:
`relevant` models the truthiness of `result.get("relevant")`. -/
structure EvalResult where
  relevant : Bool
  summary : String
  agency_relevance : String
  talking_points : List String
  deriving DecidableEq

/-- The `{"relevant": False}` dictionary returned on any malformed or
failing classifier response (absent keys read as defaults). -/
def notRelevant : EvalResult :=
  ⟨false, "", "", []⟩

/-- The in-place mutation in `main`'s classification loop:
`article["summary"] = ...; article["agency_relevance"] = ...;
article["talking_points"] = ...`. -/
def enrich (a : Article) (r : EvalResult) : Article :=
  ⟨a.title, a.url, r.summary, r.agency_relevance, r.talking_points⟩

/-! ### Deduplication (`deduplicate_articles`, digest.py lines 80-97) -/

/-- `title = article.get("title", "").lower().strip()`,
`title_clean = "".join(c for c in title if c.isalnum() or c.isspace())`,
`words_a = set(title_clean.split())`. -/
def titleWords (title : String) : Finset String :=
  let lowered := title.toList.map Char.toLower
  let stripped := pyStrip lowered
  let cleaned := stripped.filter (fun c => c.isAlphanum || c.isWhitespace)
  ((pySplit cleaned).map List.asString).toFinset

/-- The duplicate test between one candidate token set and one already
accepted token set: `words_a and seen_words` (both non-empty) and
`len(words_a & seen_words) / max(len(words_a), len(seen_words)) >= 0.7`,
the float comparison embedded exactly as `7 * max ≤ 10 * inter`. -/
def isDupPair (wa ws : Finset String) : Bool :=
  wa.card != 0 && ws.card != 0 &&
    decide (7 * max wa.card ws.card ≤ 10 * (wa ∩ ws).card)

/-- The main loop of `deduplicate_articles`: `seen` is the list of
already accepted token sets, appended to in acceptance order. -/
def dedupAux : List Article → List (Finset String) → List Article
  | [], _ => []
  | a :: rest, seen =>
    let w := titleWords a.title
    if seen.any (fun s => isDupPair w s) then
      dedupAux rest seen
    else
      a :: dedupAux rest (seen ++ [w])

/-- `deduplicate_articles(candidates)`: drop articles whose titles are
70%+ similar to one already seen. -/
def deduplicate_articles (candidates : List Article) : List Article :=
  dedupAux candidates []

/-! ### Classifier response handling (`evaluate_and_summarize`, lines 175-189) -/

/-- `start = text.find("{")`, `end = text.rfind("}") + 1`; if
`start != -1 and end > start`, the slice `text[start:end]`, else no
extractable JSON object. -/
def extractJson (text : List Char) : Option (List Char) :=
  match text.findIdx? (fun c => c == '\x7b') with
  | none => none
  | some start =>
    match rfindChar '\x7d' text with
    | none => none
    | some last =>
      if start < last + 1 then some ((text.drop start).take (last + 1 - start))
      else none

/-- The response handling of `evaluate_and_summarize`.  The Anthropic
call is an oracle: `resp` is `Except.error ()` when the API call raises,
otherwise the reply text.  `json.loads` is the oracle `parseJson`,
returning `none` when it raises.  All exceptions are caught by the
`except` clause and turned into `{"relevant": False}`. -/
def evaluate_and_summarize (parseJson : List Char → Option EvalResult)
    (resp : Except Unit (List Char)) : EvalResult :=
  match resp with
  | Except.error _ => notRelevant
  | Except.ok raw =>
    match extractJson (pyStrip raw) with
    | none => notRelevant
    | some s =>
      match parseJson s with
      | none => notRelevant
      | some r => r

/-! ### Per-industry classification loop (`main`, lines 1305-1317) -/

/-- The quota-bounded classification loop from `main`:
`good` is `good_articles`, `evald` records each article passed to
`evaluate_and_summarize` (in order), `ev` is the classifier.  The loop
breaks before evaluating a candidate once `target ≤ good.length`. -/
def industryLoop (ev : Article → EvalResult) (target : Nat) :
    List Article → List Article → List Article → List Article × List Article
  | good, evald, [] => (good, evald)
  | good, evald, a :: rest =>
    if target ≤ good.length then (good, evald)
    else
      let r := ev a
      if r.relevant then
        industryLoop ev target (good ++ [enrich a r]) (evald ++ [a]) rest
      else
        industryLoop ev target good (evald ++ [a]) rest

/-- One industry's selection: run the loop on the deduplicated
candidates with empty accumulators, returning (kept articles,
articles sent to the classifier). -/
def selectArticles (ev : Article → EvalResult) (target : Nat)
    (candidates : List Article) : List Article × List Article :=
  industryLoop ev target [] [] candidates

/-! ### Slack message splitting (`post_to_slack`, lines 1237-1256) -/

/-- `MAX_BLOCK = 2900`: the split size under Slack's 3000-character
section-block limit. -/
def MAX_BLOCK : Nat := 2900

/-- One iteration of the `while briefing:` loop:
`chunk = briefing[:MAX_BLOCK]`; when the briefing is longer,
`cut = chunk.rfind("\n")`, with `chunk.rfind(" ")` tried only when no
newline occurs at all, and `chunk = briefing[:cut]` only when
`cut > 0`. -/
def sbChunk (s : List Char) : List Char :=
  let window := s.take MAX_BLOCK
  if MAX_BLOCK < s.length then
    match rfindChar '\n' window with
    | some cut => if 0 < cut then s.take cut else window
    | none =>
      match rfindChar ' ' window with
      | some cut => if 0 < cut then s.take cut else window
      | none => window
  else window

/-- The splitting loop with fuel for structural recursion (each
iteration consumes at least one character, so `s.length` fuel is
enough).  After each chunk the remainder is
`briefing[len(chunk):].lstrip()`. -/
def splitFuel : Nat → List Char → List (List Char)
  | 0, _ => []
  | fuel + 1, s =>
    if s.isEmpty then []
    else
      sbChunk s ::
        splitFuel fuel ((s.drop (sbChunk s).length).dropWhile Char.isWhitespace)

/-- The section-block texts `briefing_blocks` computed by
`post_to_slack` from the briefing string. -/
def briefing_blocks (briefing : List Char) : List (List Char) :=
  splitFuel briefing.length briefing

/-- Chunks reassemble to the original briefing modulo the whitespace
stripped after each chunk. -/
inductive Reassembles : List (List Char) → List Char → Prop where
  | nil : Reassembles [] []
  | cons (c ws rest : List Char) (bs : List (List Char))
      (hws : ∀ x ∈ ws, x.isWhitespace = true)
      (h : Reassembles bs rest) :
      Reassembles (c :: bs) (c ++ (ws ++ rest))

/-! ### Upstream fetchers (`fetch_articles` lines 32-50,
`fetch_account_news` lines 193-220) -/

/-- An error raised below the JSON level: `requests.get` raising
(network failure / timeout) or `response.json()` raising on a
malformed body. -/
inductive NetError where
  | connectionError
  | invalidJson
  deriving DecidableEq

/-- A parsed NewsAPI response body: the `status` / `message` /
`articles` keys, each possibly missing. -/
structure ApiResponse (α : Type) where
  status : Option String
  message : Option String
  articles : Option (List α)
  deriving DecidableEq

/-- A Python exception escaping `fetch_articles` (which has no
try/except): a propagated network/JSON error, or a `KeyError` from a
missing dict key. -/
inductive PyError where
  | uncaughtNet (e : NetError)
  | keyError (k : String)
  deriving DecidableEq

/-- `fetch_articles`: the request and JSON decode are the oracle
`resp`.  `data["status"]` and `data["articles"]` raise `KeyError` when
missing; a non-"ok" status prints the error and returns `[]`.  There is
no try/except, so every exception propagates. -/
def fetch_articles (resp : Except NetError (ApiResponse Article)) :
    Except PyError (List Article) :=
  match resp with
  | Except.error e => Except.error (PyError.uncaughtNet e)
  | Except.ok data =>
    match data.status with
    | none => Except.error (PyError.keyError "status")
    | some st =>
      if st = "ok" then
        match data.articles with
        | none => Except.error (PyError.keyError "articles")
        | some arts => Except.ok arts
      else Except.ok []

/-- The `source` field of a raw NewsAPI article in
`fetch_account_news`: missing (`a.get("source")` is `None`), present
but not a dict, or a dict whose `"name"` key may be missing or empty. -/
inductive SourceField where
  | absent
  | notDict
  | dict (name : Option String)
  deriving DecidableEq

/-- A raw article from the account-news query, before source
normalization. -/
structure RawArticle where
  title : String
  url : String
  source : SourceField
  deriving DecidableEq

/-- The source-normalization loop body of `fetch_account_news`:
`if not isinstance(a.get("source"), dict): a["source"] = {"name": "Unknown"}
elif not a["source"].get("name"): a["source"]["name"] = "Unknown"`. -/
def fixSource (a : RawArticle) : RawArticle :=
  match a.source with
  | SourceField.dict (some n) =>
    if n = "" then ⟨a.title, a.url, SourceField.dict (some "Unknown")⟩ else a
  | SourceField.dict none => ⟨a.title, a.url, SourceField.dict (some "Unknown")⟩
  | SourceField.absent => ⟨a.title, a.url, SourceField.dict (some "Unknown")⟩
  | SourceField.notDict => ⟨a.title, a.url, SourceField.dict (some "Unknown")⟩

/-- `fetch_account_news`: the whole body is wrapped in try/except, so
any raised error yields `[]`; `data.get("status") != "ok"` yields `[]`;
otherwise `data.get("articles", [])` with each article's source
normalized in place. -/
def fetch_account_news (resp : Except NetError (ApiResponse RawArticle)) :
    List RawArticle :=
  match resp with
  | Except.error _ => []
  | Except.ok data =>
    if data.status = some "ok" then
      (data.articles.getD []).map fixSource
    else []

/-! ### Account tracking loop (`main`, lines 1324-1347) -/

/-- The JSON object produced by `evaluate_account_article` for one
candidate, after `result.get(...)` accessors. -/
structure AcctResult where
  relevant : Bool
  summary : String
  strategic_angle : String
  outreach_email : Option String
  relationship_note : Option String
  deriving DecidableEq

/-- The dict appended to `account_hits` for a relevant candidate. -/
structure AccountHit where
  article : RawArticle
  summary : String
  strategic_angle : String
  outreach_email : Option String
  relationship_note : Option String
  deriving DecidableEq

/-- Building the hit dict from the matched article and the classifier
result. -/
def mkHit (a : RawArticle) (r : AcctResult) : AccountHit :=
  ⟨a, r.summary, r.strategic_angle, r.outreach_email, r.relationship_note⟩

/-- The per-account inner loop of `main`: evaluate candidates in fetch
order, append one hit and break at the first relevant one.  Returns the
hits appended for this account and the list of candidates actually sent
to `evaluate_account_article`. -/
def accountScan (ev : RawArticle → AcctResult) :
    List RawArticle → List AccountHit × List RawArticle
  | [] => ([], [])
  | a :: rest =>
    if (ev a).relevant then ([mkHit a (ev a)], [a])
    else
      let r := accountScan ev rest
      (r.1, a :: r.2)

/-! ### Publish pipeline (`main` lines 1353-1379,
`wait_for_deployment` lines 1129-1145) -/

/-- Observable events of the publish section of `main`, in program
order. -/
inductive PubEvent where
  | filesSaved
  | gitPushed
  | gitErrorLogged
  | deployPolled (ok : Bool)
  | briefingReady
  | slackResultLogged (ok : Bool)
  | runFinished
  | uncaught
  deriving DecidableEq

/-- The external outcomes the publish section depends on: whether the
git add/commit/push subprocesses succeed, the sequence of deployment
poll results inside the timeout window (`Except.error` = request
raised, otherwise HTTP status and whether today's date string appears
in the body), whether the briefing LLM call returns text or raises, and
whether the Slack HTTP post returns a status or raises. -/
structure PublishEnv where
  gitOk : Bool
  polls : List (Except Unit (Nat × Bool))
  briefing : Except Unit String
  slackPost : Except Unit Nat

/-- `wait_for_deployment`: poll until a response has status 200 and
contains today's date, returning `True`; exhausting the polls within
the timeout returns `False`; request exceptions are swallowed and
polling continues. -/
def wait_for_deployment (polls : List (Except Unit (Nat × Bool))) : Bool :=
  polls.any fun r =>
    match r with
    | Except.ok p => p.1 == 200 && p.2
    | Except.error _ => false

/-- The publish section of `main`: files written, then git add/commit/
push inside try/except (a `CalledProcessError` logs and returns),
then `wait_for_deployment` (result ignored), then
`generate_slack_briefing` (no handler: an exception terminates the
run), then `post_to_slack` whose `requests.post` has no handler either
(an exception terminates the run) and whose non-200 status is only
logged. -/
def publishPipeline (env : PublishEnv) : List PubEvent :=
  if env.gitOk then
    PubEvent.filesSaved :: PubEvent.gitPushed ::
      PubEvent.deployPolled (wait_for_deployment env.polls) ::
      (match env.briefing with
       | Except.error _ => [PubEvent.uncaught]
       | Except.ok _ =>
         PubEvent.briefingReady ::
           (match env.slackPost with
            | Except.error _ => [PubEvent.uncaught]
            | Except.ok st =>
              [PubEvent.slackResultLogged (st == 200), PubEvent.runFinished]))
  else [PubEvent.filesSaved, PubEvent.gitErrorLogged]

/-! ### Concrete inputs used by witness theorems -/

/-- A classifier oracle that marks every article relevant. -/
def evAllRelevant : Article → EvalResult :=
  fun _ => ⟨true, "s", "ar", []⟩

/-- Five distinct candidate articles. -/
def fiveCandidates : List Article :=
  [⟨"t1", "u1", "", "", []⟩, ⟨"t2", "u2", "", "", []⟩, ⟨"t3", "u3", "", "", []⟩,
    ⟨"t4", "u4", "", "", []⟩, ⟨"t5", "u5", "", "", []⟩]

/-- A `json.loads` oracle that always raises. -/
def parseAlwaysRaises : List Char → Option EvalResult :=
  fun _ => none

/-- A classifier reply with no extractable JSON object. -/
def noJsonReply : Except Unit (List Char) :=
  Except.ok "no json object in this reply".toList

/-- An Anthropic-call oracle returning the brace-free reply for every
article. -/
def respondNoJson : Article → Except Unit (List Char) :=
  fun _ => noJsonReply

/-- A NewsAPI body reporting an error status. -/
def badStatusResponse : ApiResponse Article :=
  ⟨some "error", some "apiKeyInvalid", none⟩

/-- A raw account-news article whose source field is not a dict. -/
def rawNoDictSource : RawArticle :=
  ⟨"Acme acquires Beta", "https://example.com/a", SourceField.notDict⟩

/-- A successful account-news response carrying the ill-sourced
article. -/
def accountNewsOk : Except NetError (ApiResponse RawArticle) :=
  Except.ok ⟨some "ok", none, some [rawNoDictSource]⟩

/-- A briefing over the block limit whose window's only newline sits at
index 0, shadowing the space break point at index 1: the code then cuts
at the raw 2900-character boundary, inside the long word of `b`s. -/
def breakShadowedBriefing : List Char :=
  '\n' :: ' ' :: List.replicate 2901 'b'

/-- A briefing over the block limit with a usable newline break point
at index 1. -/
def newlineBreakBriefing : List Char :=
  'x' :: '\n' :: List.replicate 2899 'a'

/-- A publish run where git succeeds, every deployment poll fails (the
poll times out), the briefing is generated, and Slack answers 500. -/
def timedOutSlackFailEnv : PublishEnv :=
  ⟨true, [Except.error (), Except.ok (404, false), Except.ok (200, false)],
    Except.ok "briefing", Except.ok 500⟩

/-- A publish run where git succeeds but the briefing LLM call
raises. -/
def briefingRaisesEnv : PublishEnv :=
  ⟨true, [], Except.error (), Except.ok 200⟩

/-! ### Lemmas about deduplication -/

theorem isDupPair_empty_left (w : Finset String) : isDupPair ∅ w = false := by
  simp [isDupPair]

theorem isDupPair_empty_right (w : Finset String) : isDupPair w ∅ = false := by
  simp [isDupPair]

theorem isDupPair_comm (wa ws : Finset String) : isDupPair wa ws = isDupPair ws wa := by
  unfold isDupPair
  rw [Finset.inter_comm, Nat.max_comm, Bool.and_comm (wa.card != 0) (ws.card != 0)]

theorem isDupPair_eq_false_iff (wa ws : Finset String) :
    isDupPair wa ws = false ↔
      wa = ∅ ∨ ws = ∅ ∨ 10 * (wa ∩ ws).card < 7 * max wa.card ws.card := by
  simp only [isDupPair, Bool.and_eq_false_iff, bne_eq_false_iff_eq,
    decide_eq_false_iff_not, not_le, ← Finset.card_eq_zero]
  tauto

/-- Every article in the output of `dedupAux` passed the duplicate test
against every token set in `seen`. -/
theorem dedupAux_not_dup_of_seen :
    ∀ (l : List Article) (seen : List (Finset String)) (a : Article),
      a ∈ dedupAux l seen → ∀ s ∈ seen, isDupPair (titleWords a.title) s = false := by
  intro l
  induction l with
  | nil => intro seen a ha; simp [dedupAux] at ha
  | cons x rest ih =>
    intro seen a ha s hs
    by_cases hdup : (seen.any (fun s => isDupPair (titleWords x.title) s)) = true
    · rw [dedupAux, if_pos hdup] at ha
      exact ih seen a ha s hs
    · rw [dedupAux, if_neg hdup] at ha
      rcases List.mem_cons.mp ha with rfl | ha'
      · exact Bool.eq_false_iff.mpr ((List.any_eq_false.mp (Bool.eq_false_iff.mpr hdup)) s hs)
      · exact ih (seen ++ [titleWords x.title]) a ha' s (List.mem_append_left _ hs)

/-- The output of `dedupAux` is pairwise non-duplicate: each later
retained article passed the test against each earlier one's token set. -/
theorem dedupAux_pairwise :
    ∀ (l : List Article) (seen : List (Finset String)),
      (dedupAux l seen).Pairwise
        (fun x y => isDupPair (titleWords y.title) (titleWords x.title) = false) := by
  intro l
  induction l with
  | nil => intro seen; simp [dedupAux]
  | cons x rest ih =>
    intro seen
    by_cases hdup : (seen.any (fun s => isDupPair (titleWords x.title) s)) = true
    · rw [dedupAux, if_pos hdup]; exact ih seen
    · rw [dedupAux, if_neg hdup]
      refine List.Pairwise.cons ?_ (ih _)
      intro b hb
      exact dedupAux_not_dup_of_seen rest _ b hb (titleWords x.title)
        (List.mem_append_right _ (List.mem_singleton.mpr rfl))

/-- A list that is already pairwise non-duplicate, and clean with
respect to `seen`, passes through `dedupAux` unchanged. -/
theorem dedupAux_id_of_clean :
    ∀ (l : List Article) (seen : List (Finset String)),
      (∀ a ∈ l, ∀ s ∈ seen, isDupPair (titleWords a.title) s = false) →
      l.Pairwise (fun x y => isDupPair (titleWords y.title) (titleWords x.title) = false) →
      dedupAux l seen = l := by
  intro l
  induction l with
  | nil => intro seen _ _; rfl
  | cons x rest ih =>
    intro seen h1 h2
    have hany : (seen.any (fun s => isDupPair (titleWords x.title) s)) = false :=
      List.any_eq_false.mpr (fun s hs => by
        simp only [Bool.not_eq_true]
        exact h1 x (List.mem_cons_self x rest) s hs)
    rw [dedupAux, if_neg (by simp [hany])]
    congr 1
    apply ih
    · intro a ha s hs
      rcases List.mem_append.mp hs with hs' | hs'
      · exact h1 a (List.mem_cons_of_mem _ ha) s hs'
      · rw [List.mem_singleton.mp hs']
        exact (List.pairwise_cons.mp h2).1 a ha
    · exact (List.pairwise_cons.mp h2).2

/-- A candidate whose token set participates in a positive duplicate
test is non-empty (an empty set never matches). -/
theorem dedupAux_countP_empty :
    ∀ (l : List Article) (seen : List (Finset String)),
      (dedupAux l seen).countP (fun a => decide (titleWords a.title = ∅)) =
        l.countP (fun a => decide (titleWords a.title = ∅)) := by
  intro l
  induction l with
  | nil => intro seen; rfl
  | cons x rest ih =>
    intro seen
    by_cases hdup : (seen.any (fun s => isDupPair (titleWords x.title) s)) = true
    · rw [dedupAux, if_pos hdup, ih]
      have hx : titleWords x.title ≠ ∅ := by
        obtain ⟨s, _, hs⟩ := List.any_eq_true.mp hdup
        intro hempty
        rw [hempty, isDupPair_empty_left] at hs
        exact Bool.false_ne_true hs
      rw [List.countP_cons_of_neg]
      simpa using hx
    · rw [dedupAux, if_neg hdup]
      by_cases hx : titleWords x.title = ∅
      · rw [List.countP_cons_of_pos _ _ (by simpa using hx),
          List.countP_cons_of_pos _ _ (by simpa using hx), ih]
      · rw [List.countP_cons_of_neg _ _ (by simpa using hx),
          List.countP_cons_of_neg _ _ (by simpa using hx), ih]

/-! ### Claim theorems C1, C5, C6 -/

/-- C1: for every input list of candidate articles, every pair of
candidates retained by `deduplicate_articles` has normalized-title
token-set overlap ratio (intersection size over the larger set size)
strictly below 0.70 — i.e. `10 * |inter| < 7 * max` — except where one
of the two token sets is empty. -/
theorem C1_dedup_pairwise_low_overlap (l : List Article) :
    (deduplicate_articles l).Pairwise (fun a b =>
      titleWords a.title = ∅ ∨ titleWords b.title = ∅ ∨
        10 * (titleWords a.title ∩ titleWords b.title).card <
          7 * max (titleWords a.title).card (titleWords b.title).card) := by
  refine (dedupAux_pairwise l []).imp ?_
  intro a b hab
  rw [isDupPair_comm, isDupPair_eq_false_iff] at hab
  exact hab

/-- C5: deduplication is idempotent — applying `deduplicate_articles`
to its own output returns that output unchanged. -/
theorem C5_dedup_idempotent (l : List Article) :
    deduplicate_articles (deduplicate_articles l) = deduplicate_articles l := by
  unfold deduplicate_articles
  exact dedupAux_id_of_clean _ [] (by intro a _ s hs; simp at hs)
    (dedupAux_pairwise l [])

/-- C6: an article whose title normalizes to an empty token set is never
treated as a duplicate (`isDupPair ∅ w = false`), never causes a later
candidate to be dropped as its duplicate (`isDupPair w ∅ = false`), and
every such occurrence is retained by the deduplicator (the count of
empty-token-set articles is preserved); empty and whitespace-only titles
normalize to the empty token set. -/
theorem C6_empty_title_retained :
    (∀ l : List Article,
      (deduplicate_articles l).countP (fun a => decide (titleWords a.title = ∅)) =
        l.countP (fun a => decide (titleWords a.title = ∅))) ∧
    (∀ w : Finset String, isDupPair ∅ w = false ∧ isDupPair w ∅ = false) ∧
    titleWords "" = ∅ ∧ titleWords "   " = ∅ := by
  refine ⟨fun l => dedupAux_countP_empty l [], fun w => ⟨isDupPair_empty_left w, isDupPair_empty_right w⟩, ?_, ?_⟩
  · decide
  · decide

/-! ### Lemmas about the classification loop -/

/-- The kept list never grows beyond the target, given it starts within
the target. -/
theorem industryLoop_length_le (ev : Article → EvalResult) (t : Nat) :
    ∀ (l good evald : List Article), good.length ≤ t →
      (industryLoop ev t good evald l).1.length ≤ t := by
  intro l
  induction l with
  | nil => intro good evald h; simpa [industryLoop] using h
  | cons a rest ih =>
    intro good evald h
    by_cases hfull : t ≤ good.length
    · simpa [industryLoop, hfull] using h
    · rw [industryLoop, if_neg hfull]
      by_cases hrel : (ev a).relevant
      · simp only [hrel, if_pos]
        exact ih _ _ (by simp; omega)
      · simp only [hrel, if_neg, Bool.false_eq_true, not_false_eq_true]
        exact ih _ _ h

/-- The evaluated list is the accumulator followed by a prefix of the
remaining candidates; when that prefix is proper, the loop stopped
because the quota was reached. -/
theorem industryLoop_evald (ev : Article → EvalResult) (t : Nat) :
    ∀ (l good evald : List Article), good.length ≤ t →
      ∃ k ≤ l.length,
        (industryLoop ev t good evald l).2 = evald ++ l.take k ∧
        (k < l.length → (industryLoop ev t good evald l).1.length = t) := by
  intro l
  induction l with
  | nil =>
    intro good evald h
    exact ⟨0, Nat.le_refl 0, by simp [industryLoop], by intro hlt; simp at hlt⟩
  | cons a rest ih =>
    intro good evald h
    by_cases hfull : t ≤ good.length
    · refine ⟨0, Nat.zero_le _, by simp [industryLoop, hfull], ?_⟩
      intro _
      rw [industryLoop, if_pos hfull]
      show good.length = t
      omega
    · rw [industryLoop, if_neg hfull]
      by_cases hrel : (ev a).relevant
      · simp only [hrel, if_pos]
        obtain ⟨k, hk, he, hstop⟩ := ih (good ++ [enrich a (ev a)]) (evald ++ [a])
          (by simp; omega)
        refine ⟨k + 1, by simpa using hk, ?_, ?_⟩
        · rw [he]; simp
        · intro hlt; exact hstop (by simpa using hlt)
      · simp only [hrel, if_neg, Bool.false_eq_true, not_false_eq_true]
        obtain ⟨k, hk, he, hstop⟩ := ih good (evald ++ [a]) h
        refine ⟨k + 1, by simpa using hk, ?_, ?_⟩
        · rw [he]; simp
        · intro hlt; exact hstop (by simpa using hlt)

/-- When every remaining candidate is relevant, the loop keeps exactly
the next `t - good.length` candidates (enriched) and evaluates exactly
those. -/
theorem industryLoop_all_relevant (ev : Article → EvalResult) (t : Nat) :
    ∀ (l good evald : List Article), good.length ≤ t →
      (∀ a ∈ l, (ev a).relevant = true) →
      industryLoop ev t good evald l =
        (good ++ (l.take (t - good.length)).map (fun a => enrich a (ev a)),
          evald ++ l.take (t - good.length)) := by
  intro l
  induction l with
  | nil => intro good evald _ _; simp [industryLoop]
  | cons a rest ih =>
    intro good evald h hall
    by_cases hfull : t ≤ good.length
    · have : t - good.length = 0 := by omega
      simp [industryLoop, hfull, this]
    · rw [industryLoop, if_neg hfull]
      have hrel : (ev a).relevant = true := hall a (List.mem_cons_self a rest)
      simp only [hrel, if_pos]
      rw [ih (good ++ [enrich a (ev a)]) (evald ++ [a]) (by simp; omega)
        (fun b hb => hall b (List.mem_cons_of_mem a hb))]
      have hpos : t - good.length = (t - (good ++ [enrich a (ev a)]).length) + 1 := by
        simp; omega
      rw [hpos]
      simp [List.take_cons]

/-- C2: for every classifier, target and deduplicated candidate list,
the per-industry loop retains at most `target` enriched articles; the
candidates sent to the classifier form an in-order prefix of the list,
and whenever that prefix is proper (some candidate was never evaluated)
the quota was exactly reached; in particular when every candidate is
relevant, exactly the first `target` candidates are kept (enriched) and
only they are ever sent to the classifier. -/
theorem C2_industry_quota (ev : Article → EvalResult) (target : Nat)
    (candidates : List Article) :
    (selectArticles ev target candidates).1.length ≤ target ∧
    (∃ k ≤ candidates.length,
      (selectArticles ev target candidates).2 = candidates.take k ∧
      (k < candidates.length →
        (selectArticles ev target candidates).1.length = target)) ∧
    ((∀ a ∈ candidates, (ev a).relevant = true) →
      (selectArticles ev target candidates).1 =
        (candidates.take target).map (fun a => enrich a (ev a)) ∧
      (selectArticles ev target candidates).2 = candidates.take target) := by
  refine ⟨industryLoop_length_le ev target candidates [] [] (Nat.zero_le _), ?_, ?_⟩
  · obtain ⟨k, hk, he, hstop⟩ :=
      industryLoop_evald ev target candidates [] [] (Nat.zero_le _)
    exact ⟨k, hk, by simpa using he, hstop⟩
  · intro hall
    have h := industryLoop_all_relevant ev target candidates [] [] (Nat.zero_le _) hall
    constructor
    · rw [selectArticles, h]; simp
    · rw [selectArticles, h]; simp

/-- C2 witness: target 3 with five candidates all classified relevant
keeps exactly the (enriched) first three and sends exactly the first
three to the classifier. -/
theorem C2_industry_quota_witness :
    (selectArticles evAllRelevant 3 fiveCandidates).1 =
      (fiveCandidates.take 3).map (fun a => enrich a (evAllRelevant a)) ∧
    (selectArticles evAllRelevant 3 fiveCandidates).2 = fiveCandidates.take 3 ∧
    (selectArticles evAllRelevant 3 fiveCandidates).1.length ≤ 3 := by
  have h := C2_industry_quota evAllRelevant 3 fiveCandidates
  have hall := h.2.2 (by decide)
  exact ⟨hall.1, hall.2, h.1⟩

/-- C8: a classifier response that raises, has no extractable JSON
object between the first brace and the last closing brace, or whose
extracted slice fails JSON parsing, always yields the not-relevant
verdict; and a not-relevant verdict makes the per-industry loop move on
to the next candidate instead of aborting. -/
theorem C8_malformed_response_not_relevant
    (parseJson : List Char → Option EvalResult) (resp : Except Unit (List Char)) :
    ((resp = Except.error () ∨
      (∃ raw, resp = Except.ok raw ∧ extractJson (pyStrip raw) = none) ∨
      (∃ raw s, resp = Except.ok raw ∧ extractJson (pyStrip raw) = some s ∧
        parseJson s = none)) →
      evaluate_and_summarize parseJson resp = notRelevant) ∧
    (∀ (respond : Article → Except Unit (List Char)) (t : Nat)
      (good evald : List Article) (a : Article) (rest : List Article),
      good.length < t →
      evaluate_and_summarize parseJson (respond a) = notRelevant →
      industryLoop (fun x => evaluate_and_summarize parseJson (respond x))
          t good evald (a :: rest) =
        industryLoop (fun x => evaluate_and_summarize parseJson (respond x))
          t good (evald ++ [a]) rest) := by
  constructor
  · rintro (rfl | ⟨raw, rfl, hext⟩ | ⟨raw, s, rfl, hext, hparse⟩)
    · rfl
    · simp [evaluate_and_summarize, hext]
    · simp [evaluate_and_summarize, hext, hparse]
  · intro respond t good evald a rest hlt hnr
    rw [industryLoop, if_neg (Nat.not_le.mpr hlt)]
    simp only [hnr]
    rfl

/-- C8 witness: with a brace-free reply the evaluation returns the
not-relevant verdict, and the loop proceeds to the remaining candidates
with the article merely recorded as evaluated. -/
theorem C8_malformed_response_witness :
    evaluate_and_summarize parseAlwaysRaises noJsonReply = notRelevant ∧
    industryLoop (fun x => evaluate_and_summarize parseAlwaysRaises (respondNoJson x))
        1 [] [] [⟨"t", "u", "", "", []⟩] =
      industryLoop (fun x => evaluate_and_summarize parseAlwaysRaises (respondNoJson x))
        1 [] ([] ++ [⟨"t", "u", "", "", []⟩]) [] := by
  have h := C8_malformed_response_not_relevant parseAlwaysRaises noJsonReply
  refine ⟨h.1 (Or.inr (Or.inl ⟨_, rfl, by decide⟩)), ?_⟩
  exact h.2 respondNoJson 1 [] [] ⟨"t", "u", "", "", []⟩ [] (by decide) (by decide)

/-- C4: for every account classifier and fetched candidate list, the
per-account loop appends at most one hit; the hit, when one exists, is
built from the first candidate in fetch order that the classifier
judges relevant; and exactly the candidates up to and including that
first relevant one are ever sent to the classifier. -/
theorem C4_account_first_relevant_wins (ev : RawArticle → AcctResult)
    (l : List RawArticle) :
    (accountScan ev l).1.length ≤ 1 ∧
    (accountScan ev l).1 =
      ((l.find? fun a => (ev a).relevant).map fun a => mkHit a (ev a)).toList ∧
    (accountScan ev l).2 = l.take ((l.findIdx fun a => (ev a).relevant) + 1) := by
  induction l with
  | nil => exact ⟨by simp [accountScan], by simp [accountScan], by simp [accountScan]⟩
  | cons a rest ih =>
    by_cases hrel : (ev a).relevant
    · refine ⟨?_, ?_, ?_⟩
      · simp [accountScan, hrel]
      · rw [accountScan, if_pos hrel,
          List.find?_cons_of_pos (p := fun x => (ev x).relevant) rest hrel]
        rfl
      · rw [accountScan, if_pos hrel, List.findIdx_cons]
        simp [hrel]
    · have hb : (ev a).relevant = false := Bool.eq_false_iff.mpr hrel
      refine ⟨?_, ?_, ?_⟩
      · rw [accountScan, if_neg hrel]
        exact ih.1
      · rw [accountScan, if_neg hrel,
          List.find?_cons_of_neg (p := fun x => (ev x).relevant) rest hrel]
        exact ih.2.1
      · rw [accountScan, if_neg hrel, List.findIdx_cons]
        simp only [hb, cond_false]
        show a :: (accountScan ev rest).2 =
          (a :: rest).take ((rest.findIdx fun x => (ev x).relevant) + 1 + 1)
        rw [ih.2.2]
        rfl

/-- C10: every article returned by `fetch_account_news` carries a
dict-shaped source with a non-empty name: missing, non-dict, nameless
and empty-named sources are all replaced by "Unknown" before the
article is returned. -/
theorem C10_account_news_source_nonempty
    (resp : Except NetError (ApiResponse RawArticle)) :
    ∀ a ∈ fetch_account_news resp,
      ∃ n, a.source = SourceField.dict (some n) ∧ n ≠ "" := by
  intro a ha
  match resp with
  | Except.error _ => simp [fetch_account_news] at ha
  | Except.ok data =>
    rw [fetch_account_news] at ha
    by_cases hst : data.status = some "ok"
    · rw [if_pos hst] at ha
      obtain ⟨b, _, rfl⟩ := List.mem_map.mp ha
      match hsrc : b.source with
      | SourceField.dict (some n) =>
        by_cases hn : n = ""
        · exact ⟨"Unknown", by simp [fixSource, hsrc, hn], by decide⟩
        · exact ⟨n, by simp [fixSource, hsrc, hn], hn⟩
      | SourceField.dict none => exact ⟨"Unknown", by simp [fixSource, hsrc], by decide⟩
      | SourceField.absent => exact ⟨"Unknown", by simp [fixSource, hsrc], by decide⟩
      | SourceField.notDict => exact ⟨"Unknown", by simp [fixSource, hsrc], by decide⟩
    · rw [if_neg hst] at ha
      simp at ha

/-- C10 witness: the concrete non-dict-sourced article comes back with
source name "Unknown". -/
theorem C10_account_news_source_witness :
    fixSource rawNoDictSource ∈ fetch_account_news accountNewsOk ∧
    ∃ n, (fixSource rawNoDictSource).source = SourceField.dict (some n) ∧ n ≠ "" := by
  refine ⟨by decide, ?_⟩
  exact C10_account_news_source_nonempty accountNewsOk (fixSource rawNoDictSource) (by decide)

/-- C3 counterexample: a network failure during the industry news fetch
is not caught — `fetch_articles` propagates the exception instead of
returning an empty result set, so the claim that it never raises an
exception that terminates the run is false. -/
theorem C3_counterexample :
    fetch_articles (Except.error NetError.connectionError) =
      Except.error (PyError.uncaughtNet NetError.connectionError) ∧
    Except.error (PyError.uncaughtNet NetError.connectionError) ≠
      Except.ok ([] : List Article) := by
  exact ⟨rfl, fun h => Except.noConfusion h⟩

/-- C3 amended: an upstream error reported inside the response body
(`status != "ok"`) makes the industry fetch log and return `[]`, and the
account-news fetch returns `[]` on every fetch error (bad status,
network failure, malformed body); but the industry fetch
`fetch_articles` has no exception handler, so a network failure or
malformed response body propagates and terminates the run. -/
theorem C3_amended_fetch_errors (e : NetError) (d : ApiResponse Article)
    (dr : ApiResponse RawArticle) :
    (∀ st, d.status = some st → st ≠ "ok" → fetch_articles (Except.ok d) = Except.ok []) ∧
    fetch_articles (Except.error e) = Except.error (PyError.uncaughtNet e) ∧
    fetch_account_news (Except.error e) = [] ∧
    (dr.status ≠ some "ok" → fetch_account_news (Except.ok dr) = []) := by
  refine ⟨?_, rfl, rfl, ?_⟩
  · intro st hst hne
    rw [fetch_articles]
    simp [hst, hne]
  · intro hne
    rw [fetch_account_news]
    simp [hne]

/-- C3 amended witness: an error-status body yields `[]` from the
industry fetch, and a connection error yields `[]` from the account
fetch. -/
theorem C3_amended_fetch_errors_witness :
    fetch_articles (Except.ok badStatusResponse) = Except.ok [] ∧
    fetch_account_news (Except.error NetError.connectionError) = [] ∧
    fetch_account_news (Except.ok ⟨none, none, none⟩) = [] := by
  have h := C3_amended_fetch_errors NetError.connectionError badStatusResponse
    ⟨none, none, none⟩
  exact ⟨h.1 "error" (by decide) (by decide), h.2.2.1, h.2.2.2 (by decide)⟩

/-! ### Lemmas about the Slack splitter -/

theorem rfindChar_lt_length {c : Char} :
    ∀ {l : List Char} {i : Nat}, rfindChar c l = some i → i < l.length := by
  intro l
  induction l with
  | nil => intro i h; simp [rfindChar] at h
  | cons x xs ih =>
    intro i h
    rw [rfindChar] at h
    cases hr : rfindChar c xs with
    | some j =>
      rw [hr] at h
      have := ih hr
      simp only [Option.some.injEq] at h
      simp [← h]
      omega
    | none =>
      rw [hr] at h
      by_cases hx : x = c
      · rw [if_pos hx] at h
        simp only [Option.some.injEq] at h
        simp [← h]
      · rw [if_neg hx] at h
        exact absurd h (by simp)

theorem rfindChar_mem {c : Char} :
    ∀ {l : List Char} {i : Nat}, rfindChar c l = some i → l[i]? = some c := by
  intro l
  induction l with
  | nil => intro i h; simp [rfindChar] at h
  | cons x xs ih =>
    intro i h
    rw [rfindChar] at h
    cases hr : rfindChar c xs with
    | some j =>
      rw [hr] at h
      simp only [Option.some.injEq] at h
      rw [← h, List.getElem?_cons_succ]
      exact ih hr
    | none =>
      rw [hr] at h
      by_cases hx : x = c
      · rw [if_pos hx] at h
        simp only [Option.some.injEq] at h
        rw [← h, List.getElem?_cons_zero, hx]
      · rw [if_neg hx] at h
        exact absurd h (by simp)

theorem take_length_take (l : List Char) (k : Nat) :
    l.take ((l.take k).length) = l.take k := by
  rw [List.length_take]
  rcases Nat.le_total k l.length with h | h
  · rw [Nat.min_eq_left h]
  · rw [Nat.min_eq_right h, List.take_length, List.take_of_length_le h]

theorem sbChunk_of_short {s : List Char} (h : ¬ MAX_BLOCK < s.length) :
    sbChunk s = s.take MAX_BLOCK := by
  simp [sbChunk, h]

theorem sbChunk_newline {s : List Char} {cut : Nat} (h : MAX_BLOCK < s.length)
    (hn : rfindChar '\n' (s.take MAX_BLOCK) = some cut) (hc : 0 < cut) :
    sbChunk s = s.take cut := by
  simp [sbChunk, h, hn, hc]

theorem sbChunk_newline_zero {s : List Char} {cut : Nat} (h : MAX_BLOCK < s.length)
    (hn : rfindChar '\n' (s.take MAX_BLOCK) = some cut) (hc : ¬ 0 < cut) :
    sbChunk s = s.take MAX_BLOCK := by
  simp [sbChunk, h, hn, hc]

theorem sbChunk_space {s : List Char} {cut : Nat} (h : MAX_BLOCK < s.length)
    (hn : rfindChar '\n' (s.take MAX_BLOCK) = none)
    (hsp : rfindChar ' ' (s.take MAX_BLOCK) = some cut) (hc : 0 < cut) :
    sbChunk s = s.take cut := by
  simp [sbChunk, h, hn, hsp, hc]

theorem sbChunk_space_zero {s : List Char} {cut : Nat} (h : MAX_BLOCK < s.length)
    (hn : rfindChar '\n' (s.take MAX_BLOCK) = none)
    (hsp : rfindChar ' ' (s.take MAX_BLOCK) = some cut) (hc : ¬ 0 < cut) :
    sbChunk s = s.take MAX_BLOCK := by
  simp [sbChunk, h, hn, hsp, hc]

theorem sbChunk_no_break {s : List Char} (h : MAX_BLOCK < s.length)
    (hn : rfindChar '\n' (s.take MAX_BLOCK) = none)
    (hsp : rfindChar ' ' (s.take MAX_BLOCK) = none) :
    sbChunk s = s.take MAX_BLOCK := by
  simp [sbChunk, h, hn, hsp]

theorem sbChunk_eq_take (s : List Char) : ∃ k, 0 < k ∧ sbChunk s = s.take k := by
  by_cases hlen : MAX_BLOCK < s.length
  · cases hn : rfindChar '\n' (s.take MAX_BLOCK) with
    | some cut =>
      by_cases hc : 0 < cut
      · exact ⟨cut, hc, sbChunk_newline hlen hn hc⟩
      · exact ⟨MAX_BLOCK, by decide, sbChunk_newline_zero hlen hn hc⟩
    | none =>
      cases hsp : rfindChar ' ' (s.take MAX_BLOCK) with
      | some cut =>
        by_cases hc : 0 < cut
        · exact ⟨cut, hc, sbChunk_space hlen hn hsp hc⟩
        · exact ⟨MAX_BLOCK, by decide, sbChunk_space_zero hlen hn hsp hc⟩
      | none => exact ⟨MAX_BLOCK, by decide, sbChunk_no_break hlen hn hsp⟩
  · exact ⟨MAX_BLOCK, by decide, sbChunk_of_short hlen⟩

theorem sbChunk_length_le (s : List Char) : (sbChunk s).length ≤ MAX_BLOCK := by
  by_cases hlen : MAX_BLOCK < s.length
  · cases hn : rfindChar '\n' (s.take MAX_BLOCK) with
    | some cut =>
      have hcut := rfindChar_lt_length hn
      rw [List.length_take] at hcut
      by_cases hc : 0 < cut
      · rw [sbChunk_newline hlen hn hc, List.length_take]
        omega
      · rw [sbChunk_newline_zero hlen hn hc, List.length_take]
        omega
    | none =>
      cases hsp : rfindChar ' ' (s.take MAX_BLOCK) with
      | some cut =>
        have hcut := rfindChar_lt_length hsp
        rw [List.length_take] at hcut
        by_cases hc : 0 < cut
        · rw [sbChunk_space hlen hn hsp hc, List.length_take]
          omega
        · rw [sbChunk_space_zero hlen hn hsp hc, List.length_take]
          omega
      | none =>
        rw [sbChunk_no_break hlen hn hsp, List.length_take]
        omega
  · rw [sbChunk_of_short hlen, List.length_take]
    omega

theorem sbChunk_ne_nil {s : List Char} (hs : s ≠ []) : sbChunk s ≠ [] := by
  obtain ⟨k, hk, hchunk⟩ := sbChunk_eq_take s
  rw [hchunk]
  intro hnil
  rcases List.take_eq_nil_iff.mp hnil with h | h
  · omega
  · exact hs h

theorem splitFuel_length_le :
    ∀ (fuel : Nat) (s : List Char) (b : List Char),
      b ∈ splitFuel fuel s → b.length ≤ MAX_BLOCK := by
  intro fuel
  induction fuel with
  | zero => intro s b hb; simp [splitFuel] at hb
  | succ n ih =>
    intro s b hb
    rw [splitFuel] at hb
    by_cases hs : s.isEmpty
    · rw [if_pos hs] at hb
      simp at hb
    · rw [if_neg hs] at hb
      rcases List.mem_cons.mp hb with rfl | hb'
      · exact sbChunk_length_le s
      · exact ih _ b hb'

theorem splitFuel_reassembles :
    ∀ (fuel : Nat) (s : List Char), s.length ≤ fuel →
      Reassembles (splitFuel fuel s) s := by
  intro fuel
  induction fuel with
  | zero =>
    intro s h
    have : s = [] := List.eq_nil_of_length_eq_zero (Nat.le_zero.mp h)
    subst this
    exact Reassembles.nil
  | succ n ih =>
    intro s h
    by_cases hs : s.isEmpty
    · have : s = [] := List.isEmpty_iff.mp hs
      subst this
      simp only [splitFuel, List.isEmpty_nil, if_true]
      exact Reassembles.nil
    · rw [splitFuel, if_neg hs]
      have hsnil : s ≠ [] := by
        intro h0
        subst h0
        exact hs rfl
      obtain ⟨k, hk, hchunk⟩ := sbChunk_eq_take s
      have hchl : s.take ((sbChunk s).length) = sbChunk s := by
        rw [hchunk, take_length_take]
      have hchpos : 0 < (sbChunk s).length :=
        List.length_pos.mpr (sbChunk_ne_nil hsnil)
      have hsplit : s = sbChunk s ++
          ((s.drop ((sbChunk s).length)).takeWhile Char.isWhitespace ++
            (s.drop ((sbChunk s).length)).dropWhile Char.isWhitespace) := by
        rw [List.takeWhile_append_dropWhile]
        nth_rewrite 1 [← hchl]
        rw [List.take_append_drop]
      have hrest : ((s.drop ((sbChunk s).length)).dropWhile Char.isWhitespace).length ≤ n := by
        have h1 : ((s.drop ((sbChunk s).length)).dropWhile Char.isWhitespace).length ≤
            (s.drop ((sbChunk s).length)).length :=
          List.Sublist.length_le (List.dropWhile_sublist Char.isWhitespace)
        rw [List.length_drop] at h1
        omega
      have key := Reassembles.cons (sbChunk s)
        ((s.drop ((sbChunk s).length)).takeWhile Char.isWhitespace)
        ((s.drop ((sbChunk s).length)).dropWhile Char.isWhitespace)
        (splitFuel n ((s.drop ((sbChunk s).length)).dropWhile Char.isWhitespace))
        (fun x hx => List.mem_takeWhile_imp hx)
        (ih _ hrest)
      rwa [← hsplit] at key


theorem rfindChar_replicate {c b : Char} (h : ¬ b = c) :
    ∀ n, rfindChar c (List.replicate n b) = none := by
  intro n
  induction n with
  | zero => rfl
  | succ m ih =>
    rw [List.replicate_succ, rfindChar, ih, if_neg h]

theorem take_two_cons_replicate (a b c : Char) (m n : Nat) (h2 : 2 ≤ m)
    (h : m - 2 ≤ n) :
    (a :: b :: List.replicate n c).take m = a :: b :: List.replicate (m - 2) c := by
  rw [List.take_cons (by omega), List.take_cons (by omega), List.take_replicate]
  have : m - 1 - 1 = m - 2 := by omega
  rw [this, Nat.min_eq_left h]

theorem drop_two_cons_replicate (a b c : Char) (m n : Nat) (h2 : 2 ≤ m) :
    (a :: b :: List.replicate n c).drop m = List.replicate (n - (m - 2)) c := by
  obtain ⟨k, rfl⟩ : ∃ k, m = k + 2 := ⟨m - 2, by omega⟩
  show (a :: b :: List.replicate n c).drop (k + 1 + 1) = _
  rw [List.drop_succ_cons, List.drop_succ_cons, List.drop_replicate]
  have : k + 2 - 2 = k := by omega
  rw [this]

theorem dropWhile_replicate_of_neg {c : Char} (h : ¬ c.isWhitespace = true) (n : Nat) :
    (List.replicate n c).dropWhile Char.isWhitespace = List.replicate n c := by
  cases n with
  | zero => rfl
  | succ m =>
    rw [List.replicate_succ, List.dropWhile_cons_of_neg h]

theorem splitFuel_nil : ∀ fuel, splitFuel fuel [] = [] := by
  intro fuel
  cases fuel with
  | zero => rfl
  | succ n => rfl

theorem splitFuel_whole (fuel : Nat) (s : List Char) (hne : s ≠ [])
    (hlen : ¬ MAX_BLOCK < s.length) (hfuel : 1 ≤ fuel) :
    splitFuel fuel s = [s] := by
  cases fuel with
  | zero => omega
  | succ n =>
    rw [splitFuel, if_neg (by simpa using hne)]
    have hchunk : sbChunk s = s := by
      rw [sbChunk_of_short hlen, List.take_of_length_le (by omega)]
    rw [hchunk, List.drop_length]
    show s :: splitFuel n [] = [s]
    rw [splitFuel_nil]

/-- The general shape behind the counterexample: a briefing
`'\n' :: ' ' :: 'b'*n` longer than the limit (with a short tail) is
split at the raw `MAX_BLOCK` boundary, not at the space. -/
theorem briefing_blocks_shadowed (n : Nat) (h : MAX_BLOCK < n + 2)
    (h2 : n + 2 - MAX_BLOCK ≤ MAX_BLOCK) :
    briefing_blocks ('\n' :: ' ' :: List.replicate n 'b') =
      ['\n' :: ' ' :: List.replicate (MAX_BLOCK - 2) 'b',
        List.replicate (n + 2 - MAX_BLOCK) 'b'] := by
  have hM : MAX_BLOCK = 2900 := rfl
  have hslen : ('\n' :: ' ' :: List.replicate n 'b').length = n + 2 := by
    simp
  have htake : ('\n' :: ' ' :: List.replicate n 'b').take MAX_BLOCK =
      '\n' :: ' ' :: List.replicate (MAX_BLOCK - 2) 'b' :=
    take_two_cons_replicate _ _ _ _ _ (by omega) (by omega)
  have e1 : rfindChar '\n' (List.replicate (MAX_BLOCK - 2) 'b') = none :=
    rfindChar_replicate (by decide) _
  have e2 : rfindChar '\n' (' ' :: List.replicate (MAX_BLOCK - 2) 'b') = none := by
    rw [rfindChar, e1, if_neg (by decide)]
  have e3 : rfindChar '\n' (('\n' :: ' ' :: List.replicate n 'b').take MAX_BLOCK) =
      some 0 := by
    rw [htake, rfindChar, e2, if_pos rfl]
  have hlen' : MAX_BLOCK < ('\n' :: ' ' :: List.replicate n 'b').length := by
    rw [hslen]; exact h
  have hchunk : sbChunk ('\n' :: ' ' :: List.replicate n 'b') =
      '\n' :: ' ' :: List.replicate (MAX_BLOCK - 2) 'b' := by
    rw [sbChunk_newline_zero hlen' e3 (by omega), htake]
  have hclen : ('\n' :: ' ' :: List.replicate (MAX_BLOCK - 2) 'b').length = MAX_BLOCK := by
    simp
    omega
  have hdrop : ('\n' :: ' ' :: List.replicate n 'b').drop MAX_BLOCK =
      List.replicate (n + 2 - MAX_BLOCK) 'b' := by
    rw [drop_two_cons_replicate _ _ _ _ _ (by omega)]
    have : n - (MAX_BLOCK - 2) = n + 2 - MAX_BLOCK := by omega
    rw [this]
  have hlast : splitFuel (n + 1) (List.replicate (n + 2 - MAX_BLOCK) 'b') =
      [List.replicate (n + 2 - MAX_BLOCK) 'b'] := by
    apply splitFuel_whole
    · intro hnil
      have hl := congrArg List.length hnil
      simp only [List.length_replicate, List.length_nil] at hl
      omega
    · simp only [List.length_replicate]
      omega
    · omega
  rw [briefing_blocks, hslen]
  show splitFuel (n + 1 + 1) ('\n' :: ' ' :: List.replicate n 'b') = _
  rw [splitFuel, if_neg (by simp), hchunk, hclen, hdrop,
    dropWhile_replicate_of_neg (by decide), hlast]

theorem getLast?_two_cons_replicate_succ (a b c : Char) (k : Nat) :
    (a :: b :: List.replicate (k + 1) c).getLast? = some c := by
  rw [List.replicate_succ',
    show a :: b :: (List.replicate k c ++ [c]) =
      (a :: b :: List.replicate k c) ++ [c] from rfl]
  exact List.getLast?_concat _

/-- C7 counterexample: the briefing `"\n" + " " + "b"*2901` exceeds the
limit and its 2900-character window holds a space break point at index
1 (and a newline at index 0), yet the splitter emits the raw
2900-character window as the first block: the block boundary falls
between two `'b'`s of one unbroken word (the first block ends in `'b'`
and the second block starts with `'b'`), so the claim that no chunk
boundary falls inside a word when a newline/space break point exists in
the window is false. -/
theorem C7_counterexample :
    briefing_blocks breakShadowedBriefing =
      ['\n' :: ' ' :: List.replicate 2898 'b', List.replicate 3 'b'] ∧
    breakShadowedBriefing.take MAX_BLOCK = '\n' :: ' ' :: List.replicate 2898 'b' ∧
    ('\n' :: ' ' :: List.replicate 2898 'b').getLast? = some 'b' ∧
    (List.replicate 3 'b').head? = some 'b' ∧
    ('b' : Char).isWhitespace = false ∧ (' ' : Char).isWhitespace = true := by
  have hblocks := briefing_blocks_shadowed 2901 (by decide) (by decide)
  have h1 : MAX_BLOCK - 2 = 2898 := by decide
  have h2 : 2901 + 2 - MAX_BLOCK = 3 := by decide
  rw [h1, h2] at hblocks
  have htake : breakShadowedBriefing.take MAX_BLOCK =
      '\n' :: ' ' :: List.replicate 2898 'b' := by
    rw [breakShadowedBriefing,
      take_two_cons_replicate _ _ _ _ _ (by decide) (by decide), h1]
  refine ⟨hblocks, htake, ?_, by decide, by decide, by decide⟩
  exact getLast?_two_cons_replicate_succ '\n' ' ' 'b' 2897

/-- C7 amended: every section block is at most `MAX_BLOCK = 2900`
characters, and the blocks reassemble to the original briefing modulo
the whitespace stripped between blocks; but the mid-word guarantee only
holds in the code's restricted form: when the briefing exceeds the
limit, the chunk ends exactly before the window's last newline provided
that newline sits at a positive index, and exactly before the window's
last space provided the window has no newline at all and that space
sits at a positive index — a break point at index 0, or space break
points shadowed by a newline at index 0, still produce a mid-word cut. -/
theorem C7_amended_split (s : List Char) :
    (∀ c ∈ briefing_blocks s, c.length ≤ MAX_BLOCK) ∧
    Reassembles (briefing_blocks s) s ∧
    (MAX_BLOCK < s.length →
      (∀ cut, rfindChar '\n' (s.take MAX_BLOCK) = some cut → 0 < cut →
        sbChunk s = s.take cut ∧ s[cut]? = some '\n') ∧
      (rfindChar '\n' (s.take MAX_BLOCK) = none →
        ∀ cut, rfindChar ' ' (s.take MAX_BLOCK) = some cut → 0 < cut →
          sbChunk s = s.take cut ∧ s[cut]? = some ' ')) := by
  refine ⟨fun c hc => splitFuel_length_le _ _ c hc,
    splitFuel_reassembles _ _ (le_refl _), ?_⟩
  intro hlen
  constructor
  · intro cut hn hc
    refine ⟨sbChunk_newline hlen hn hc, ?_⟩
    have hmem := rfindChar_mem hn
    have hcut := rfindChar_lt_length hn
    rw [List.length_take] at hcut
    rw [List.getElem?_take, if_pos (by omega)] at hmem
    exact hmem
  · intro hn cut hsp hc
    refine ⟨sbChunk_space hlen hn hsp hc, ?_⟩
    have hmem := rfindChar_mem hsp
    have hcut := rfindChar_lt_length hsp
    rw [List.length_take] at hcut
    rw [List.getElem?_take, if_pos (by omega)] at hmem
    exact hmem

/-- C7 amended witness: on a briefing over the limit whose window's
last newline sits at index 1, the chunk is cut exactly before that
newline, and the blocks obey the size bound and reassemble to the
briefing. -/
theorem C7_amended_split_witness :
    MAX_BLOCK < newlineBreakBriefing.length ∧
    sbChunk newlineBreakBriefing = newlineBreakBriefing.take 1 ∧
    newlineBreakBriefing[1]? = some '\n' ∧
    Reassembles (briefing_blocks newlineBreakBriefing) newlineBreakBriefing := by
  have hlenW : MAX_BLOCK < newlineBreakBriefing.length := by
    simp only [newlineBreakBriefing, List.length_cons, List.length_replicate]
    decide
  have htakeW : newlineBreakBriefing.take MAX_BLOCK =
      'x' :: '\n' :: List.replicate (MAX_BLOCK - 2) 'a' := by
    rw [newlineBreakBriefing]
    exact take_two_cons_replicate _ _ _ _ _ (by decide) (by decide)
  have e1 : rfindChar '\n' (List.replicate (MAX_BLOCK - 2) 'a') = none :=
    rfindChar_replicate (by decide) _
  have e2 : rfindChar '\n' ('\n' :: List.replicate (MAX_BLOCK - 2) 'a') = some 0 := by
    rw [rfindChar, e1, if_pos rfl]
  have e3 : rfindChar '\n' (newlineBreakBriefing.take MAX_BLOCK) = some 1 := by
    rw [htakeW, rfindChar, e2]
  have h := C7_amended_split newlineBreakBriefing
  have h3 := (h.2.2 hlenW).1 1 e3 (by decide)
  exact ⟨hlenW, h3.1, h3.2, h.2.1⟩

/-- C9 counterexample: with the commit/push succeeding but the briefing
LLM call raising, the run dies with an uncaught exception before the
chat post — a failure other than commit/push aborted the remaining
publish steps, so the claim that only the commit/push failure is fatal
is false. -/
theorem C9_counterexample :
    publishPipeline briefingRaisesEnv =
      [PubEvent.filesSaved, PubEvent.gitPushed, PubEvent.deployPolled false,
        PubEvent.uncaught] ∧
    briefingRaisesEnv.gitOk = true := by
  exact ⟨rfl, rfl⟩

/-- C9 amended: a commit/push failure is logged and aborts all
remaining publish steps; a deployment-poll timeout is non-fatal and the
pipeline proceeds to the briefing and chat post regardless of the poll
outcome; a chat post answered with a non-200 status is only logged,
once, with no retry and no abort; but an exception raised while
generating the briefing (or by the chat HTTP call itself) is uncaught
and terminates the run before the chat post. -/
theorem C9_amended_publish (env : PublishEnv) :
    (env.gitOk = false →
      publishPipeline env = [PubEvent.filesSaved, PubEvent.gitErrorLogged]) ∧
    (env.gitOk = true →
      PubEvent.deployPolled (wait_for_deployment env.polls) ∈ publishPipeline env) ∧
    (env.gitOk = true → ∀ b, env.briefing = Except.ok b →
      PubEvent.briefingReady ∈ publishPipeline env) ∧
    (env.gitOk = true → ∀ b st, env.briefing = Except.ok b →
      env.slackPost = Except.ok st →
      PubEvent.slackResultLogged (st == 200) ∈ publishPipeline env ∧
      PubEvent.runFinished ∈ publishPipeline env) ∧
    ((publishPipeline env).countP
      (fun e => match e with
        | PubEvent.slackResultLogged _ => true
        | _ => false) ≤ 1) ∧
    (env.gitOk = true → env.briefing = Except.error () →
      ∀ b, PubEvent.slackResultLogged b ∉ publishPipeline env) := by
  obtain ⟨g, polls, brief, slack⟩ := env
  rcases g with _ | _ <;> rcases brief with be | bs <;> rcases slack with se | ss <;>
    refine ⟨?_, ?_, ?_, ?_, ?_, ?_⟩ <;>
    simp [publishPipeline]

/-- C9 amended witness: git succeeds, every poll fails (timeout), Slack
answers 500: the chat post still happens, is logged exactly once as a
failure, and the run finishes. -/
theorem C9_amended_publish_witness :
    wait_for_deployment timedOutSlackFailEnv.polls = false ∧
    PubEvent.slackResultLogged false ∈ publishPipeline timedOutSlackFailEnv ∧
    PubEvent.runFinished ∈ publishPipeline timedOutSlackFailEnv ∧
    (publishPipeline timedOutSlackFailEnv).countP
      (fun e => match e with
        | PubEvent.slackResultLogged _ => true
        | _ => false) ≤ 1 := by
  have h := C9_amended_publish timedOutSlackFailEnv
  have h4 := h.2.2.2.1 (by decide) "briefing" 500 rfl rfl
  exact ⟨by decide, h4.1, h4.2, h.2.2.2.2.1⟩
